import Mathlib

/-!
Shallow embedding of the report-normalization engine in
`src/utils/parser.py` (class `TestResultParser`) together with the data
model of `src/utils/dtos.py`.  Python machine values are modelled as
follows: `int` as `Int`, `float` as `Rat` (exact decimal arithmetic; the
inputs the engine meets are decimal literals, and the claims checked here
do not depend on IEEE rounding or on non-finite literals), exceptions as
`Except PyErr`, `None`-able strings as `Option String`.
-/

/-- Python string truthiness for `str | None`: truthy iff present and non-empty. -/
def pyTruthy : Option String → Bool
  | some s => !(s == "")
  | none => false

/-- Python `a or b` on `str | None` operands. -/
def pyOrStr (a b : Option String) : Option String :=
  if pyTruthy a then a else b

/-- Is `pre` a prefix of `l`? (for Python substring containment). -/
def charsHasPre : List Char → List Char → Bool
  | [], _ => true
  | _ :: _, [] => false
  | a :: as, b :: bs => a == b && charsHasPre as bs

/-- Does `hay` contain `needle` as a contiguous run? (Python `needle in hay`). -/
def charsContains : List Char → List Char → Bool
  | hay, needle =>
    charsHasPre needle hay ||
      match hay with
      | [] => false
      | _ :: t => charsContains t needle

/-- Python `needle in hay` on strings. -/
def strContains (hay needle : String) : Bool :=
  charsContains hay.toList needle.toList

/-- Leading and trailing whitespace removed (Python `str.strip()`).
Implemented over the character list so that concrete values reduce in the
kernel. -/
def trimChars (l : List Char) : List Char :=
  ((l.dropWhile Char.isWhitespace).reverse.dropWhile Char.isWhitespace).reverse

/-- Python `str.strip()` on a string. -/
def strTrim (s : String) : String :=
  String.mk (trimChars s.toList)

/-- Python `str.lower()`. -/
def strLower (s : String) : String :=
  String.mk (s.toList.map Char.toLower)

/-- Python `s.startswith(p)`. -/
def strStarts (s p : String) : Bool :=
  charsHasPre p.toList s.toList

/-- Python `s.endswith(p)`. -/
def strEnds (s p : String) : Bool :=
  charsHasPre p.toList.reverse s.toList.reverse

/-- Python `c in s` for a single character. -/
def strHasChar (s : String) (c : Char) : Bool :=
  s.toList.contains c

/-- `m.strip() if m else None` (used for case messages). -/
def stripOrNone (m : Option String) : Option String :=
  if pyTruthy m then m.map strTrim else none

/-- Numeric value of a list of decimal digits. -/
def digitsVal (l : List Char) : Nat :=
  l.foldl (fun a c => a * 10 + (c.toNat - Char.toNat '0')) 0

/-- Python `int(s)` on a decimal string: optional surrounding whitespace,
optional sign, at least one digit; `none` models the `ValueError`.
(Underscore digit separators and non-ASCII digits are out of scope.) -/
def pyInt (s : String) : Option Int :=
  let t := trimChars s.toList
  match t with
  | '-' :: rest =>
    if !rest.isEmpty && rest.all Char.isDigit then some (-(digitsVal rest : Int)) else none
  | '+' :: rest =>
    if !rest.isEmpty && rest.all Char.isDigit then some (digitsVal rest : Int) else none
  | _ =>
    if !t.isEmpty && t.all Char.isDigit then some (digitsVal t : Int) else none

/-- `mant * 10 ^ shift`, negated when `neg`. -/
def ratOfParts (neg : Bool) (mant : Nat) (shift : Int) : Rat :=
  let n : Int := if neg then -(mant : Int) else (mant : Int)
  if 0 ≤ shift then mkRat (n * ((10 : Nat) ^ shift.toNat : Nat)) 1
  else mkRat n ((10 : Nat) ^ (-shift).toNat)

/-- Exponent suffix of a float literal (`""` or `e[sign]digits`). -/
def pyFloatExp (neg : Bool) (mant : Nat) (shift : Int) : List Char → Option Rat
  | [] => some (ratOfParts neg mant shift)
  | 'e' :: r =>
    let (esign, r2) : Bool × List Char :=
      match r with
      | '-' :: rr => (true, rr)
      | '+' :: rr => (false, rr)
      | _ => (false, r)
    if !r2.isEmpty && r2.all Char.isDigit then
      let e : Int := if esign then -(digitsVal r2 : Int) else (digitsVal r2 : Int)
      some (ratOfParts neg mant (shift + e))
    else none
  | _ => none

/-- Python `float(s)` on a finite decimal literal: optional whitespace and
sign, integer and/or fractional digits, optional exponent; `none` models
the `ValueError`.  (Non-finite literals `inf`/`nan` are out of scope.) -/
def pyFloat (s : String) : Option Rat :=
  let t := (trimChars s.toList).map Char.toLower
  let (neg, t1) : Bool × List Char :=
    match t with
    | '-' :: r => (true, r)
    | '+' :: r => (false, r)
    | _ => (false, t)
  let ip := t1.takeWhile Char.isDigit
  let rest := t1.dropWhile Char.isDigit
  match rest with
  | '.' :: r2 =>
    let fp := r2.takeWhile Char.isDigit
    let rest2 := r2.dropWhile Char.isDigit
    if ip.isEmpty && fp.isEmpty then none
    else pyFloatExp neg (digitsVal (ip ++ fp)) (-(fp.length : Int)) rest2
  | _ =>
    if ip.isEmpty then none
    else pyFloatExp neg (digitsVal ip) 0 rest

/-- An `xml.etree.ElementTree.Element`: tag, attribute map (first binding
wins on lookup), text before the first child (`None` when empty), and the
child elements in document order. -/
inductive Element where
  | mk (tag : String) (attrs : List (String × String)) (text : Option String)
      (children : List Element)
deriving Repr

def Element.tag : Element → String
  | .mk t _ _ _ => t

def Element.attrs : Element → List (String × String)
  | .mk _ a _ _ => a

def Element.text : Element → Option String
  | .mk _ _ x _ => x

def Element.children : Element → List Element
  | .mk _ _ _ c => c

/-- `elem.get(name)` (no default). -/
def Element.get (e : Element) (name : String) : Option String :=
  (e.attrs.find? (fun p => p.1 == name)).map (·.2)

/-- `elem.find(tag)`: first direct child with the tag. -/
def Element.find (e : Element) (t : String) : Option Element :=
  e.children.find? (fun c => c.tag == t)

/-- `elem.findall(tag)`: direct children with the tag, in order. -/
def Element.childrenWithTag (e : Element) (t : String) : List Element :=
  e.children.filter (fun c => c.tag == t)

mutual

/-- All proper descendants of an element, in document order. -/
def elemDesc : Element → List Element
  | .mk _ _ _ cs => descList cs

/-- Each element of a list followed by its proper descendants, in document order. -/
def descList : List Element → List Element
  | [] => []
  | c :: rest => c :: (elemDesc c ++ descList rest)

end

/-- All proper descendants of `e`, in document order. -/
def Element.descendants (e : Element) : List Element :=
  elemDesc e

/-- `elem.findall('.//' + tag)`: descendants with the tag, in document order. -/
def Element.descendantsWithTag (e : Element) (t : String) : List Element :=
  e.descendants.filter (fun c => c.tag == t)

/-- `elem.find('.//' + tag)`: first descendant with the tag. -/
def Element.findDesc (e : Element) (t : String) : Option Element :=
  (e.descendantsWithTag t).head?

/-- `dtos.TestCaseResult`. -/
structure TestCaseResult where
  name : String
  suite : String
  result : String
  time : Rat
  message : Option String
deriving Repr, DecidableEq

/-- `dtos.TestResultSummary`. -/
structure TestResultSummary where
  total : Int
  passed : Int
  failed : Int
  skipped : Int
  errors : Int
  time : Rat
  test_cases : List TestCaseResult
deriving Repr, DecidableEq

/-- The exceptions `parser.py` can raise. -/
inductive PyErr where
  | valueError (msg : String)
  | fileNotFound (msg : String)
  | parseError (msg : String)
deriving Repr, DecidableEq

deriving instance DecidableEq for Except

/-- `int(e.get(name, 0))`: absent attribute gives 0, a present attribute is
parsed as an int, raising `ValueError` when it does not parse
(parser.py:109-112, 314-318). -/
def intAttr (e : Element) (name : String) : Except PyErr Int :=
  match e.get name with
  | none => .ok 0
  | some v =>
    match pyInt v with
    | some n => .ok n
    | none => .error (.valueError v)

/-- `float(e.get('time', 0.0))`: absent attribute gives 0.0, a present
attribute is parsed as a float, raising `ValueError` when it does not
parse (parser.py:142, 241, 319, 329). -/
def timeAttr (e : Element) : Except PyErr Rat :=
  match e.get "time" with
  | none => .ok 0
  | some v =>
    match pyFloat v with
    | some q => .ok q
    | none => .error (.valueError v)

/-- The total/err-free value `intAttr` produces when it succeeds
(statement-side view of `int(e.get(name, 0))`). -/
def attrIntD (e : Element) (name : String) : Int :=
  match e.get name with
  | none => 0
  | some v => (pyInt v).getD 0

/-- The value `timeAttr` produces when it succeeds
(statement-side view of `float(e.get('time', 0.0))`). -/
def attrTimeD (e : Element) : Rat :=
  match e.get "time" with
  | none => 0
  | some v => (pyFloat v).getD 0

/-! ### NUnit-style adapter (`TestResultParser._parse_nunit`, parser.py:83-190) -/

/-- Status normalization of the nunit adapter (parser.py:146-154): lowercase
the raw token, then substring containment checks in priority order. -/
def normalizeNunit (r : String) : String :=
  let n := strLower r
  if strContains n "success" || strContains n "pass" then "passed"
  else if strContains n "fail" then "failed"
  else if strContains n "error" then "error"
  else if strContains n "skip" || strContains n "ignore" then "skipped"
  else n

/-- One `test-case` element of a nunit `results` block (parser.py:140-173):
name, time (may raise), normalized result, and the failure message taken
from the failure child's `message` element text, falling back to the
failure element's own text. -/
def nunitCase (suiteName : String) (tc : Element) : Except PyErr TestCaseResult := do
  let tcName := (tc.get "name").getD "Unknown"
  let tcTime ← timeAttr tc
  let res := normalizeNunit ((tc.get "result").getD "Unknown")
  let msg : Option String :=
    match tc.find "failure" with
    | none => none
    | some f =>
      let fallback : Option String :=
        match f.text with
        | none => none
        | some t => if t == "" then none else some (strTrim t)
      match f.find "message" with
      | some m =>
        match m.text with
        | some t => if t == "" then fallback else some (strTrim t)
        | none => fallback
      | none => fallback
  .ok ⟨tcName, suiteName, res, tcTime, msg⟩

/-- The loop over `results.findall('test-case')` (parser.py:140-173),
appending to the accumulated case list. -/
def nunitCasesLoop (sn : String) : List TestCaseResult → List Element →
    Except PyErr (List TestCaseResult)
  | acc, [] => .ok acc
  | acc, tc :: rest => do
    let c ← nunitCase sn tc
    nunitCasesLoop sn (acc ++ [c]) rest

/-- The amount one suite adds to `suites_sum_time` (parser.py:130-135):
`suite_time_attr = suite.get('time'); if suite_time_attr: try:
suites_sum_time += float(suite_time_attr) except ValueError: pass` — an
absent, falsy, or non-numeric time attribute contributes nothing. -/
def suiteTimeContrib (suite : Element) : Rat :=
  match suite.get "time" with
  | none => 0
  | some t =>
    if t == "" then 0
    else
      match pyFloat t with
      | some q => q
      | none => 0

/-- One iteration of the `for suite in root.findall('.//test-suite')` loop
(parser.py:126-173): accumulate the suite's time attribute when it parses
(silently skipping it otherwise), then process the `test-case` children of
the suite's `results` child, if any. -/
def nunitSuiteStep (st : Rat × List TestCaseResult) (suite : Element) :
    Except PyErr (Rat × List TestCaseResult) := do
  let suiteName := (suite.get "name").getD "Unknown"
  let sum : Rat := st.1 + suiteTimeContrib suite
  match suite.find "results" with
  | none => .ok (sum, st.2)
  | some res => do
    let cs ← nunitCasesLoop suiteName st.2 (res.childrenWithTag "test-case")
    .ok (sum, cs)

/-- The whole suites loop of the nunit adapter (parser.py:125-173). -/
def nunitSuitesLoop : Rat × List TestCaseResult → List Element →
    Except PyErr (Rat × List TestCaseResult)
  | st, [] => .ok st
  | st, s :: rest => do
    let st2 ← nunitSuiteStep st s
    nunitSuitesLoop st2 rest

/-- `time_val = root.get('time', '0')` then `try: total_time =
float(time_val) except ValueError: total_time = 0.0` (parser.py:115-120). -/
def nunitRootTime (root : Element) : Rat :=
  match pyFloat ((root.get "time").getD "0") with
  | some q => q
  | none => 0

/-- `TestResultParser._parse_nunit` after root acquisition
(parser.py:98-190).  A root whose tag is not `test-results` leaves every
counter at its initial zero. -/
def nunitFromRoot (root : Element) : Except PyErr TestResultSummary :=
  if root.tag = "test-results" then do
    let total ← intAttr root "total"
    let errors ← intAttr root "errors"
    let failed ← intAttr root "failures"
    let sk ← intAttr root "skipped"
    let ig ← intAttr root "ignored"
    let nr ← intAttr root "not-run"
    let skipped := sk + ig + nr
    let rootTime := nunitRootTime root
    let passed := total - failed - errors - skipped
    let (suitesSum, cases) ← nunitSuitesLoop (0, []) (root.descendantsWithTag "test-suite")
    let finalTime := if rootTime = 0 then suitesSum else rootTime
    .ok ⟨total, passed, failed, skipped, errors, finalTime, cases⟩
  else
    .ok ⟨0, 0, 0, 0, 0, 0, []⟩

/-! ### JUnit-style adapter (`TestResultParser._parse_junit`, parser.py:192-285) -/

/-- `child.get('message') or child.text`, then
`tc_message.strip() if tc_message else None` (parser.py:252-273). -/
def junitMessage (child : Element) : Option String :=
  stripOrNone (pyOrStr (child.get "message") child.text)

/-- One iteration of the `for tc in suite.findall('.//testcase')` loop
(parser.py:239-275): read name and time (may raise), classify passed /
failed / error / skipped by direct child lookup in that priority order,
bump the matching counter and the total, and append the case. -/
def junitCaseStep (suiteName : String) (acc : TestResultSummary) (tc : Element) :
    Except PyErr TestResultSummary := do
  let tcName := (tc.get "name").getD "Unknown"
  let tcTime ← timeAttr tc
  match tc.find "failure" with
  | some f =>
    .ok { acc with
            failed := acc.failed + 1
            total := acc.total + 1
            test_cases := acc.test_cases ++ [⟨tcName, suiteName, "failed", tcTime, junitMessage f⟩] }
  | none =>
    match tc.find "error" with
    | some er =>
      .ok { acc with
              errors := acc.errors + 1
              total := acc.total + 1
              test_cases := acc.test_cases ++ [⟨tcName, suiteName, "error", tcTime, junitMessage er⟩] }
    | none =>
      match tc.find "skipped" with
      | some sk =>
        .ok { acc with
                skipped := acc.skipped + 1
                total := acc.total + 1
                test_cases := acc.test_cases ++ [⟨tcName, suiteName, "skipped", tcTime, junitMessage sk⟩] }
      | none =>
        .ok { acc with
                passed := acc.passed + 1
                total := acc.total + 1
                test_cases := acc.test_cases ++ [⟨tcName, suiteName, "passed", tcTime, none⟩] }

/-- The testcase loop over one suite (parser.py:239-275). -/
def junitCasesLoop (sn : String) : TestResultSummary → List Element →
    Except PyErr TestResultSummary
  | acc, [] => .ok acc
  | acc, tc :: rest => do
    let acc2 ← junitCaseStep sn acc tc
    junitCasesLoop sn acc2 rest

/-- One iteration of the suites loop (parser.py:230-275).  `skipSuiteTime`
is `root.tag == 'testsuites' and bool(root.get('time'))`, hoisted out of
the loop; when false the suite's truthy time attribute is added to the
total (raising on a non-numeric value). -/
def junitSuiteStep (skipSuiteTime : Bool) (acc : TestResultSummary) (suite : Element) :
    Except PyErr TestResultSummary := do
  let suiteName := (suite.get "name").getD "Unknown"
  let acc2 ←
    if skipSuiteTime then .ok acc
    else
      match suite.get "time" with
      | none => .ok acc
      | some t =>
        if t == "" then .ok acc
        else
          match pyFloat t with
          | some q => .ok { acc with time := acc.time + q }
          | none => .error (.valueError t)
  junitCasesLoop suiteName acc2 (suite.descendantsWithTag "testcase")

/-- The whole suites loop of the junit adapter (parser.py:230-275). -/
def junitSuitesLoop (skip : Bool) : TestResultSummary → List Element →
    Except PyErr TestResultSummary
  | acc, [] => .ok acc
  | acc, s :: rest => do
    let acc2 ← junitSuiteStep skip acc s
    junitSuitesLoop skip acc2 rest

/-- The suite list selection of the junit adapter (parser.py:216-228):
direct `testsuite` children of a `testsuites` container, the root itself
when it is a `testsuite`, otherwise all `testsuite` descendants. -/
def junitSuites (root : Element) : List Element :=
  if root.tag = "testsuites" then root.childrenWithTag "testsuite"
  else if root.tag = "testsuite" then [root]
  else root.descendantsWithTag "testsuite"

/-- `TestResultParser._parse_junit` after root acquisition
(parser.py:205-285): select the suite list from the root's shape, read a
root-level time when the root is a `testsuites` container (raising if the
truthy attribute does not parse), then run the suites loop. -/
def junitFromRoot (root : Element) : Except PyErr TestResultSummary := do
  let suites := junitSuites root
  let initTime : Rat ←
    if root.tag = "testsuites" then
      match root.get "time" with
      | none => .ok 0
      | some t =>
        if t == "" then .ok 0
        else
          match pyFloat t with
          | some q => .ok q
          | none => .error (.valueError t)
    else .ok 0
  let skipSuiteTime := root.tag == "testsuites" && pyTruthy (root.get "time")
  junitSuitesLoop skipSuiteTime ⟨0, 0, 0, 0, 0, initTime, []⟩ suites

/-! ### xUnit-style adapter (`TestResultParser._parse_xunit`, parser.py:287-366) -/

/-- One `test` element of an xunit collection (parser.py:326-356): name,
raw result token lowercased then mapped Pass/Fail/Skip exactly, time (may
raise), and the message element text of a descendant `failure` element. -/
def xunitTest (collName : String) (test : Element) : Except PyErr TestCaseResult := do
  let tName := (test.get "name").getD "Unknown Test"
  let tStatus := (test.get "result").getD "Unknown"
  let tTime ← timeAttr test
  let n := strLower tStatus
  let n2 :=
    if n = "pass" then "passed"
    else if n = "fail" then "failed"
    else if n = "skip" then "skipped"
    else n
  let msg : Option String :=
    match test.findDesc "failure" with
    | none => none
    | some f =>
      match f.find "message" with
      | some m =>
        match m.text with
        | some t => if t == "" then none else some (strTrim t)
        | none => none
      | none => none
  .ok ⟨tName, collName, n2, tTime, msg⟩

/-- The test loop of one collection (parser.py:326-356). -/
def xunitTestsLoop (cn : String) : List TestCaseResult → List Element →
    Except PyErr (List TestCaseResult)
  | acc, [] => .ok acc
  | acc, t :: rest => do
    let c ← xunitTest cn t
    xunitTestsLoop cn (acc ++ [c]) rest

/-- The collection loop of one assembly (parser.py:322-356). -/
def xunitCollectionsLoop : List TestCaseResult → List Element →
    Except PyErr (List TestCaseResult)
  | acc, [] => .ok acc
  | acc, coll :: rest => do
    let cn := (coll.get "name").getD "Unknown Collection"
    let acc2 ← xunitTestsLoop cn acc (coll.descendantsWithTag "test")
    xunitCollectionsLoop acc2 rest

/-- One iteration of the assembly loop (parser.py:312-356): the assembly's
own count and time attributes are summed into the running totals (raising
on non-numeric values), then its collections' tests are appended. -/
def xunitAssemblyStep (acc : TestResultSummary) (assembly : Element) :
    Except PyErr TestResultSummary := do
  let t ← intAttr assembly "total"
  let p ← intAttr assembly "passed"
  let f ← intAttr assembly "failed"
  let sk ← intAttr assembly "skipped"
  let er ← intAttr assembly "errors"
  let tm ← timeAttr assembly
  let cs ← xunitCollectionsLoop acc.test_cases (assembly.descendantsWithTag "collection")
  .ok ⟨acc.total + t, acc.passed + p, acc.failed + f, acc.skipped + sk, acc.errors + er,
       acc.time + tm, cs⟩

/-- The whole assembly loop of the xunit adapter (parser.py:312-356). -/
def xunitAssembliesLoop : TestResultSummary → List Element →
    Except PyErr TestResultSummary
  | acc, [] => .ok acc
  | acc, a :: rest => do
    let acc2 ← xunitAssemblyStep acc a
    xunitAssembliesLoop acc2 rest

/-- `TestResultParser._parse_xunit` after root acquisition
(parser.py:300-366). -/
def xunitFromRoot (root : Element) : Except PyErr TestResultSummary :=
  xunitAssembliesLoop ⟨0, 0, 0, 0, 0, 0, []⟩ (root.descendantsWithTag "assembly")

/-! ### XML string parsing (`xml.etree.ElementTree.fromstring`)

A small recursive-descent reading of the XML element grammar, enough to
give `_get_root` an executable `ET.fromstring`: one root element, nested
elements with attributes and text, an optional leading XML declaration.
Comments, doctypes, CDATA and entity references are out of scope.  A
`none` result models `ET.ParseError`. -/

/-- Characters allowed in an element or attribute name. -/
def nameChar (c : Char) : Bool :=
  c.isAlphanum || c == '-' || c == '_' || c == ':' || c == '.'

/-- Drop leading whitespace characters. -/
def skipSpaces : List Char → List Char
  | c :: cs => if c.isWhitespace then skipSpaces cs else c :: cs
  | [] => []

/-- Parse `name="value"` attribute pairs until something else is seen. -/
def parseAttrList : Nat → List Char → Option (List (String × String) × List Char)
  | 0, _ => none
  | fuel + 1, cs =>
    let cs1 := skipSpaces cs
    match cs1 with
    | c :: _ =>
      if nameChar c then
        let an := cs1.takeWhile nameChar
        let cs2 := skipSpaces (cs1.dropWhile nameChar)
        match cs2 with
        | '=' :: cs3 =>
          let cs4 := skipSpaces cs3
          match cs4 with
          | q :: cs5 =>
            if q == '"' || q == Char.ofNat 39 then
              let v := cs5.takeWhile (fun d => d != q)
              match cs5.dropWhile (fun d => d != q) with
              | _ :: cs6 =>
                match parseAttrList fuel cs6 with
                | some (as, rest) => some ((String.mk an, String.mk v) :: as, rest)
                | none => none
              | [] => none
            else none
          | [] => none
        | _ => none
      else some ([], cs1)
    | [] => some ([], [])

mutual

/-- Parse one element starting at `<`. -/
def parseElem : Nat → List Char → Option (Element × List Char)
  | 0, _ => none
  | fuel + 1, cs =>
    match cs with
    | '<' :: cs1 =>
      let tg := cs1.takeWhile nameChar
      if tg.isEmpty then none
      else
        match parseAttrList fuel (cs1.dropWhile nameChar) with
        | none => none
        | some (attrs, cs2) =>
          match cs2 with
          | '/' :: '>' :: cs3 => some (.mk (String.mk tg) attrs none [], cs3)
          | '>' :: cs3 =>
            match parseElemBody fuel (String.mk tg) cs3 with
            | none => none
            | some (txt, kids, cs4) => some (.mk (String.mk tg) attrs txt kids, cs4)
          | _ => none
    | _ => none

/-- Parse element content up to and including the matching closing tag,
returning the text before the first child and the child elements. -/
def parseElemBody : Nat → String → List Char → Option (Option String × List Element × List Char)
  | 0, _, _ => none
  | fuel + 1, tg, cs =>
    let txt := cs.takeWhile (fun c => c != '<')
    let cs1 := cs.dropWhile (fun c => c != '<')
    let txtOpt : Option String := if txt.isEmpty then none else some (String.mk txt)
    match cs1 with
    | '<' :: '/' :: cs2 =>
      let ct := cs2.takeWhile nameChar
      let cs3 := skipSpaces (cs2.dropWhile nameChar)
      match cs3 with
      | '>' :: cs4 => if String.mk ct == tg then some (txtOpt, [], cs4) else none
      | _ => none
    | '<' :: _ =>
      match parseElem fuel cs1 with
      | none => none
      | some (child, cs2) =>
        match parseElemBody fuel tg cs2 with
        | none => none
        | some (_, kids, cs3) => some (txtOpt, child :: kids, cs3)
    | _ => none

end

/-- Drop a leading `<? ... ?>` declaration. -/
def dropXmlDecl : List Char → List Char
  | '?' :: '>' :: rest => skipSpaces rest
  | _ :: rest => dropXmlDecl rest
  | [] => []

/-- `ET.fromstring(s)`: `none` models `ET.ParseError`. -/
def fromstring (s : String) : Option Element :=
  let cs := skipSpaces s.toList
  let cs1 :=
    match cs with
    | '<' :: '?' :: rest => dropXmlDecl rest
    | _ => cs
  match parseElem (s.toList.length + 1) cs1 with
  | some (e, rest) => if (skipSpaces rest).isEmpty then some e else none
  | none => none

/-! ### Input resolution and the facade (`_get_root`, `parse`) -/

/-- The filesystem visible to `_get_root`: the content of each existing
regular file, `none` for everything else (`Path.exists() and
Path.is_file()` collapses to membership). -/
def FS := String → Option String

/-- `TestResultParser._get_root` (parser.py:34-81): try the string as an
existing file path (only when it is shorter than 4096 characters and its
trimmed form does not start with `<`); else parse XML-looking strings
directly; else apply the likely-path heuristic and raise
`FileNotFoundError`, or fall through to a final XML parse attempt. -/
def getRoot (fs : FS) (testResult : String) : Except PyErr Element :=
  let stripped := strTrim testResult
  let isFile : Bool :=
    if !(strStarts stripped "<") then
      if testResult.toList.length < 4096 then (fs testResult).isSome else false
    else false
  if isFile then
    match fs testResult with
    | some content =>
      match fromstring content with
      | some e => .ok e
      | none => .error (.parseError content)
    | none => .error (.parseError testResult)
  else if strStarts stripped "<" then
    match fromstring testResult with
    | some e => .ok e
    | none => .error (.parseError testResult)
  else
    let isLikelyPath :=
      !(strHasChar testResult '\n') &&
        (strHasChar testResult '/' || strHasChar testResult '\\' ||
          strEnds (strLower testResult) ".xml")
    if isLikelyPath then .error (.fileNotFound ("File not found: " ++ testResult))
    else
      match fromstring testResult with
      | some e => .ok e
      | none => .error (.parseError testResult)

/-- `TestResultParser._parse_nunit` (parser.py:83-190). -/
def parseNunit (fs : FS) (testResult : String) : Except PyErr TestResultSummary := do
  let root ← getRoot fs testResult
  nunitFromRoot root

/-- `TestResultParser._parse_junit` (parser.py:192-285). -/
def parseJunit (fs : FS) (testResult : String) : Except PyErr TestResultSummary := do
  let root ← getRoot fs testResult
  junitFromRoot root

/-- `TestResultParser._parse_xunit` (parser.py:287-366). -/
def parseXunit (fs : FS) (testResult : String) : Except PyErr TestResultSummary := do
  let root ← getRoot fs testResult
  xunitFromRoot root

/-- `TestResultParser.parse` (parser.py:16-32): dispatch on the report
type selector, raising `ValueError` for anything outside the three known
tokens before the input is looked at. -/
def parse (reportType : String) (fs : FS) (testResult : String) :
    Except PyErr TestResultSummary :=
  if reportType = "junit" then parseJunit fs testResult
  else if reportType = "xunit" then parseXunit fs testResult
  else if reportType = "nunit" then parseNunit fs testResult
  else .error (.valueError ("Unsupported report type: " ++ reportType))

/-! ### Concrete documents used in witnesses and counterexamples -/

/-- The empty summary every adapter starts from. -/
def zeroSummary : TestResultSummary := ⟨0, 0, 0, 0, 0, 0, []⟩

/-- An all-zero filesystem: no path exists. -/
def emptyFS : FS := fun _ => none

/-- An arbitrary root matching neither dialect. -/
def fooRoot : Element := .mk "foo" [] none []

/-- A nunit root with count attributes only (skipped/ignored/not-run sum
to 2, so passed = 4 - 1 - 1 - 2 = 0). -/
def tinyNunit : Element :=
  .mk "test-results"
    [("total", "4"), ("failures", "1"), ("errors", "1"), ("skipped", "1"),
     ("ignored", "1"), ("not-run", "0"), ("time", "2.0")] none []

/-- The summary `tinyNunit` parses to. -/
def tinySummary : TestResultSummary := ⟨4, 0, 1, 2, 1, 2, []⟩

/-- A junit testcase with a `failure` child carrying a message attribute. -/
def tinyJunitFailTC : Element :=
  .mk "testcase" [("name", "b")] none [.mk "failure" [("message", "boom")] none []]

/-- A junit suite with one passing and one failing testcase. -/
def tinyJunit : Element :=
  .mk "testsuite" [("name", "S")] none
    [.mk "testcase" [("name", "a")] none [], tinyJunitFailTC]

/-- The summary `tinyJunit` parses to. -/
def tinyJunitSummary : TestResultSummary :=
  ⟨2, 1, 1, 0, 0, 0,
   [⟨"a", "S", "passed", 0, none⟩, ⟨"b", "S", "failed", 0, some "boom"⟩]⟩

/-- The accumulator after processing `tinyJunitFailTC` from zero. -/
def c6Acc : TestResultSummary :=
  ⟨1, 0, 1, 0, 0, 0, [⟨"b", "S", "failed", 0, some "boom"⟩]⟩

/-- An xunit document whose assembly attributes (total=5, passed=5)
disagree with its single enumerated test. -/
def mismatchXunit : Element :=
  .mk "assemblies" [] none
    [.mk "assembly" [("total", "5"), ("passed", "5")] none
      [.mk "collection" [("name", "C")] none
        [.mk "test" [("name", "t1"), ("result", "Pass")] none []]]]

/-- The summary `mismatchXunit` parses to: counts follow the assembly
attributes, the case list follows the test elements. -/
def mismatchSummary : TestResultSummary :=
  ⟨5, 5, 0, 0, 0, 0, [⟨"t1", "C", "passed", 0, none⟩]⟩

/-- A nunit root with an unparsable wall-clock root time and a top-level
suite (time 1.0) containing a nested suite (time 2.0). -/
def nestedNunit : Element :=
  .mk "test-results" [("time", "20:10:11")] none
    [.mk "test-suite" [("time", "1.0")] none
      [.mk "test-suite" [("time", "2.0")] none []]]

/-- A nunit failure element with its own text but no `message` child. -/
def c4Failure : Element := .mk "failure" [] (some " boom ") []

/-- A nunit test-case whose failure child has no `message` element. -/
def c4TC : Element :=
  .mk "test-case" [("name", "T"), ("result", "Failure")] none [c4Failure]

/-- `true` exactly on successful results. -/
def okB {α : Type} : Except PyErr α → Bool
  | .ok _ => true
  | .error _ => false

/-- A junit suite whose testcase has a non-numeric time attribute. -/
def badJunit : Element :=
  .mk "testsuite" [] none [.mk "testcase" [("time", "abc")] none []]

/-- An xunit document whose assembly has a non-numeric total attribute. -/
def badXunit : Element :=
  .mk "assemblies" [] none [.mk "assembly" [("total", "xyz")] none []]

/-- A nunit root with a non-numeric total attribute. -/
def badNunitTotal : Element := .mk "test-results" [("total", "nope")] none []

/-- A nunit document whose test-case has a non-numeric time attribute. -/
def badNunitTC : Element :=
  .mk "test-results" [] none
    [.mk "test-suite" [] none
      [.mk "results" [] none [.mk "test-case" [("time", "xx")] none []]]]

/-- A nunit root with an unparsable root time but healthy counts. -/
def c2Root : Element :=
  .mk "test-results" [("total", "1"), ("time", "20:10:11")] none []

/-! ### Helper lemmas -/

section

/- `Rat.add`/`Rat.mul`/`Rat.inv`/`Rat.sub` are `@[irreducible]` upstream;
concrete evaluation of the adapters by `decide`/`rfl` needs them to
reduce. -/
attribute [local semireducible] Rat.add Rat.mul Rat.inv Rat.sub

theorem except_bind_ok {α β : Type} {e : Except PyErr α} {f : α → Except PyErr β} {b : β} :
    (e >>= f) = .ok b ↔ ∃ a, e = .ok a ∧ f a = .ok b := by
  cases e <;> simp [Bind.bind, Except.bind]

theorem ok_bind {α β : Type} (a : α) (f : α → Except PyErr β) :
    (Except.ok a >>= f) = f a := rfl

theorem error_bind {α β : Type} (e : PyErr) (f : α → Except PyErr β) :
    ((Except.error e : Except PyErr α) >>= f) = .error e := rfl

/-- Unpack a successful nunit parse of a `test-results` root into the
values of its root attributes and the result of the suites loop. -/
theorem nunitFromRoot_ok_elim {root : Element} {s : TestResultSummary}
    (htag : root.tag = "test-results") (hok : nunitFromRoot root = .ok s) :
    ∃ t e f sk ig nr sum cs,
      intAttr root "total" = .ok t ∧ intAttr root "errors" = .ok e ∧
      intAttr root "failures" = .ok f ∧ intAttr root "skipped" = .ok sk ∧
      intAttr root "ignored" = .ok ig ∧ intAttr root "not-run" = .ok nr ∧
      nunitSuitesLoop (0, []) (root.descendantsWithTag "test-suite") = .ok (sum, cs) ∧
      s = ⟨t, t - f - e - (sk + ig + nr), f, sk + ig + nr, e,
           if nunitRootTime root = 0 then sum else nunitRootTime root, cs⟩ := by
  unfold nunitFromRoot at hok
  rw [if_pos htag] at hok
  rw [except_bind_ok] at hok
  obtain ⟨t, ht, hok⟩ := hok
  rw [except_bind_ok] at hok
  obtain ⟨e, he, hok⟩ := hok
  rw [except_bind_ok] at hok
  obtain ⟨f, hf, hok⟩ := hok
  rw [except_bind_ok] at hok
  obtain ⟨sk, hsk, hok⟩ := hok
  rw [except_bind_ok] at hok
  obtain ⟨ig, hig, hok⟩ := hok
  rw [except_bind_ok] at hok
  obtain ⟨nr, hnr, hok⟩ := hok
  dsimp only at hok
  rw [except_bind_ok] at hok
  obtain ⟨⟨sum, cs⟩, hloop, hok⟩ := hok
  dsimp only at hok
  exact ⟨t, e, f, sk, ig, nr, sum, cs, ht, he, hf, hsk, hig, hnr, hloop,
    (Except.ok.injEq _ _).mp hok.symm⟩

/-- Each processed junit testcase bumps exactly one outcome counter, the
total, and the case list, leaving their mutual relation intact. -/
theorem junitCaseStep_counts {sn : String} {acc : TestResultSummary} {tc : Element}
    {acc' : TestResultSummary} (hok : junitCaseStep sn acc tc = .ok acc') :
    acc'.passed + acc'.failed + acc'.errors + acc'.skipped =
      acc.passed + acc.failed + acc.errors + acc.skipped + 1 ∧
    acc'.total = acc.total + 1 ∧
    acc'.test_cases.length = acc.test_cases.length + 1 := by
  unfold junitCaseStep at hok
  rw [except_bind_ok] at hok
  obtain ⟨tm, htm, hok⟩ := hok
  repeat' split at hok
  all_goals obtain rfl := (Except.ok.injEq _ _).mp hok
  all_goals exact ⟨by dsimp only; try omega, by dsimp only; try omega, by simp⟩

/-- The per-suite consistency invariant of the junit tally. -/
def junitConsistent (s : TestResultSummary) : Prop :=
  s.total = s.passed + s.failed + s.errors + s.skipped ∧
  s.total = (s.test_cases.length : Int)

theorem junitCasesLoop_invariant {sn : String} :
    ∀ (l : List Element) (acc acc' : TestResultSummary),
      junitCasesLoop sn acc l = .ok acc' → junitConsistent acc → junitConsistent acc'
  | [], acc, acc', h, hinv => by
    unfold junitCasesLoop at h
    obtain rfl := (Except.ok.injEq _ _).mp h
    exact hinv
  | tc :: rest, acc, acc', h, hinv => by
    unfold junitCasesLoop at h
    rw [except_bind_ok] at h
    obtain ⟨acc2, hstep, h⟩ := h
    obtain ⟨hsum, htot, hlen⟩ := junitCaseStep_counts hstep
    obtain ⟨hi1, hi2⟩ := hinv
    refine junitCasesLoop_invariant rest acc2 acc' h ⟨by omega, by omega⟩

theorem junitSuiteStep_invariant {skip : Bool} {acc : TestResultSummary} {suite : Element}
    {acc' : TestResultSummary} (hok : junitSuiteStep skip acc suite = .ok acc')
    (hinv : junitConsistent acc) : junitConsistent acc' := by
  unfold junitSuiteStep at hok
  repeat' split at hok
  all_goals simp only [ok_bind, error_bind] at hok
  all_goals first
    | exact absurd hok (by simp)
    | exact junitCasesLoop_invariant _ _ _ hok hinv

theorem junitSuitesLoop_invariant {skip : Bool} :
    ∀ (l : List Element) (acc acc' : TestResultSummary),
      junitSuitesLoop skip acc l = .ok acc' → junitConsistent acc → junitConsistent acc'
  | [], acc, acc', h, hinv => by
    unfold junitSuitesLoop at h
    obtain rfl := (Except.ok.injEq _ _).mp h
    exact hinv
  | s :: rest, acc, acc', h, hinv => by
    unfold junitSuitesLoop at h
    rw [except_bind_ok] at h
    obtain ⟨acc2, hstep, h⟩ := h
    exact junitSuitesLoop_invariant rest acc2 acc' h (junitSuiteStep_invariant hstep hinv)

/-! ### C7: junit tally consistency -/

/-- C7: every summary a junit parse returns satisfies
total = passed + failed + errors + skipped and total = number of cases,
because all five counts are tallied from the individual case outcomes. -/
theorem junit_totals_consistent (root : Element) (s : TestResultSummary)
    (hok : junitFromRoot root = .ok s) :
    s.total = s.passed + s.failed + s.errors + s.skipped ∧
    s.total = (s.test_cases.length : Int) := by
  unfold junitFromRoot at hok
  repeat' split at hok
  all_goals simp only [ok_bind, error_bind] at hok
  all_goals first
    | exact absurd hok (by simp)
    | exact junitSuitesLoop_invariant _ _ _ hok ⟨rfl, rfl⟩

theorem nunitSuiteStep_time {st : Rat × List TestCaseResult} {suite : Element}
    {r : Rat × List TestCaseResult} (h : nunitSuiteStep st suite = .ok r) :
    r.1 = st.1 + suiteTimeContrib suite := by
  unfold nunitSuiteStep at h
  rcases hres : suite.find "results" with _ | res <;> simp only [hres] at h
  · obtain rfl := (Except.ok.injEq _ _).mp h
    rfl
  · rw [except_bind_ok] at h
    obtain ⟨cs, hcs, h⟩ := h
    obtain rfl := (Except.ok.injEq _ _).mp h
    rfl

theorem nunitSuitesLoop_time :
    ∀ (l : List Element) (st r : Rat × List TestCaseResult),
      nunitSuitesLoop st l = .ok r →
      r.1 = st.1 + (l.map suiteTimeContrib).sum
  | [], st, r, h => by
    unfold nunitSuitesLoop at h
    obtain rfl := (Except.ok.injEq _ _).mp h
    simp
  | s :: rest, st, r, h => by
    unfold nunitSuitesLoop at h
    rw [except_bind_ok] at h
    obtain ⟨st2, hstep, h⟩ := h
    rw [nunitSuitesLoop_time rest st2 r h, nunitSuiteStep_time hstep]
    simp [add_assoc]

/-! ### C3: nunit root time fallback -/

/-- C3 (amended): when the root time attribute of a `test-results`
document does not parse as a float, a successful nunit parse reports as
total time the sum of the time attributes of every `test-suite` element
at any depth (not only the top-level ones), unparsable suite times
contributing nothing. -/
theorem nunit_time_fallback (root : Element) (s : TestResultSummary)
    (htag : root.tag = "test-results")
    (hbad : pyFloat ((root.get "time").getD "0") = none)
    (hok : nunitFromRoot root = .ok s) :
    s.time = ((root.descendantsWithTag "test-suite").map suiteTimeContrib).sum := by
  obtain ⟨t, e, f, sk, ig, nr, sum, cs, _, _, _, _, _, _, hloop, hs⟩ :=
    nunitFromRoot_ok_elim htag hok
  have hrt : nunitRootTime root = 0 := by unfold nunitRootTime; rw [hbad]
  have hsum := nunitSuitesLoop_time _ _ _ hloop
  subst hs
  dsimp only
  rw [hrt, if_pos rfl]
  simpa using hsum

/-- C3 counterexample: on `nestedNunit` (root time `"20:10:11"`) the code
reports time 3.0 — the sum over the nested suite as well — while the sum
over only the top-level `test-suite` children is 1.0. -/
theorem nunit_time_fallback_counterexample :
    nunitFromRoot nestedNunit = .ok ⟨0, 0, 0, 0, 0, 3, []⟩ ∧
    ((nestedNunit.childrenWithTag "test-suite").map suiteTimeContrib).sum = 1 := by
  exact ⟨by decide, by decide⟩

/-- C3 witness: the amended statement evaluated on `nestedNunit`:
3.0 = 1.0 + 2.0, the sum over all suites at any depth. -/
theorem nunit_time_fallback_witness :
    pyFloat ((nestedNunit.get "time").getD "0") = none ∧
    nunitFromRoot nestedNunit = .ok ⟨0, 0, 0, 0, 0, 3, []⟩ ∧
    (⟨0, 0, 0, 0, 0, 3, []⟩ : TestResultSummary).time =
      ((nestedNunit.descendantsWithTag "test-suite").map suiteTimeContrib).sum :=
  ⟨by rfl, by decide,
   nunit_time_fallback nestedNunit ⟨0, 0, 0, 0, 0, 3, []⟩ rfl (by rfl) (by decide)⟩

theorem okB_iff {α : Type} {x : Except PyErr α} : okB x = true ↔ ∃ a, x = .ok a := by
  cases x <;> simp [okB]

/-- Success of a nunit parse of a `test-results` root depends only on the
count attributes and the per-case processing — never on the root `time`
attribute. -/
theorem nunit_success_iff (root : Element) (htag : root.tag = "test-results") :
    okB (nunitFromRoot root) = true ↔
      (okB (intAttr root "total") = true ∧ okB (intAttr root "errors") = true ∧
       okB (intAttr root "failures") = true ∧ okB (intAttr root "skipped") = true ∧
       okB (intAttr root "ignored") = true ∧ okB (intAttr root "not-run") = true ∧
       okB (nunitSuitesLoop (0, []) (root.descendantsWithTag "test-suite")) = true) := by
  constructor
  · intro h
    obtain ⟨s, hs⟩ := okB_iff.mp h
    obtain ⟨t, e, f, sk, ig, nr, sum, cs, ht, he, hf, hsk, hig, hnr, hloop, _⟩ :=
      nunitFromRoot_ok_elim htag hs
    exact ⟨okB_iff.mpr ⟨_, ht⟩, okB_iff.mpr ⟨_, he⟩, okB_iff.mpr ⟨_, hf⟩,
      okB_iff.mpr ⟨_, hsk⟩, okB_iff.mpr ⟨_, hig⟩, okB_iff.mpr ⟨_, hnr⟩,
      okB_iff.mpr ⟨_, hloop⟩⟩
  · rintro ⟨h1, h2, h3, h4, h5, h6, h7⟩
    obtain ⟨t, ht⟩ := okB_iff.mp h1
    obtain ⟨e, he⟩ := okB_iff.mp h2
    obtain ⟨f, hf⟩ := okB_iff.mp h3
    obtain ⟨sk, hsk⟩ := okB_iff.mp h4
    obtain ⟨ig, hig⟩ := okB_iff.mp h5
    obtain ⟨nr, hnr⟩ := okB_iff.mp h6
    obtain ⟨⟨sum, cs⟩, hloop⟩ := okB_iff.mp h7
    unfold nunitFromRoot
    rw [if_pos htag]
    simp only [ht, he, hf, hsk, hig, hnr, hloop, ok_bind]
    rfl

/-- Success of one nunit suite iteration depends only on the processing of
its test-cases — never on the suite `time` attribute. -/
theorem nunitSuiteStep_success_iff (st : Rat × List TestCaseResult) (suite : Element) :
    okB (nunitSuiteStep st suite) = true ↔
      (∀ res, suite.find "results" = some res →
        okB (nunitCasesLoop ((suite.get "name").getD "Unknown") st.2
              (res.childrenWithTag "test-case")) = true) := by
  unfold nunitSuiteStep
  rcases hres : suite.find "results" with _ | res <;> simp only [hres]
  · simp [okB]
  · constructor
    · intro h res' hres'
      obtain rfl : res = res' := by injection hres'
      rcases hl : nunitCasesLoop ((suite.get "name").getD "Unknown") st.2
          (res.childrenWithTag "test-case") with er | cs
      · rw [hl] at h
        simp [error_bind, okB] at h
      · simp [okB]
    · intro h
      obtain ⟨cs, hl⟩ := okB_iff.mp (h res rfl)
      rw [hl]
      simp [ok_bind, okB]

/-- A successful `float(e.get('time', 0.0))` means any present time
attribute parsed. -/
theorem timeAttr_ok_parses {e : Element} {q : Rat} (h : timeAttr e = .ok q) :
    ∀ v, e.get "time" = some v → pyFloat v ≠ none := by
  intro v hget hbad
  unfold timeAttr at h
  simp [hget, hbad] at h

/-- A successful `int(e.get(name, 0))` means any present attribute
parsed. -/
theorem intAttr_ok_parses {e : Element} {n : String} {m : Int} (h : intAttr e n = .ok m) :
    ∀ v, e.get n = some v → pyInt v ≠ none := by
  intro v hget hbad
  unfold intAttr at h
  simp [hget, hbad] at h

theorem junitCaseStep_ok_time {sn : String} {acc : TestResultSummary} {tc : Element}
    {acc' : TestResultSummary} (h : junitCaseStep sn acc tc = .ok acc') :
    ∀ v, tc.get "time" = some v → pyFloat v ≠ none := by
  unfold junitCaseStep at h
  rw [except_bind_ok] at h
  obtain ⟨tm, htm, _⟩ := h
  exact timeAttr_ok_parses htm

theorem junitCasesLoop_ok_times {sn : String} :
    ∀ (l : List Element) (acc acc' : TestResultSummary),
      junitCasesLoop sn acc l = .ok acc' →
      ∀ tc ∈ l, ∀ v, tc.get "time" = some v → pyFloat v ≠ none
  | [], _, _, _ => by
    intro tc htc
    exact absurd htc (List.not_mem_nil tc)
  | t :: rest, acc, acc', h => by
    unfold junitCasesLoop at h
    rw [except_bind_ok] at h
    obtain ⟨acc2, hstep, h⟩ := h
    intro tc htc
    rcases List.mem_cons.mp htc with rfl | hmem
    · exact junitCaseStep_ok_time hstep
    · exact junitCasesLoop_ok_times rest acc2 acc' h tc hmem

/-- A successful junit suite iteration read every time attribute it
touched: the suite's own (unless skipped) and each testcase's. -/
theorem junitSuiteStep_ok_numeric {skip : Bool} {acc : TestResultSummary} {suite : Element}
    {acc' : TestResultSummary} (h : junitSuiteStep skip acc suite = .ok acc') :
    (skip = false → ∀ v, suite.get "time" = some v → v ≠ "" → pyFloat v ≠ none) ∧
    (∀ tc ∈ suite.descendantsWithTag "testcase",
      ∀ v, tc.get "time" = some v → pyFloat v ≠ none) := by
  constructor
  · intro hskip v hget hne hbad
    have hb : (v == "") = false := by simp [hne]
    unfold junitSuiteStep at h
    simp [hskip, hget, hb, hbad, error_bind] at h
  · intro tc htc v hget
    unfold junitSuiteStep at h
    repeat' split at h
    all_goals simp only [ok_bind, error_bind] at h
    all_goals first
      | exact absurd h (by simp)
      | exact junitCasesLoop_ok_times _ _ _ h tc htc v hget

theorem junitSuitesLoop_ok_numeric {skip : Bool} :
    ∀ (l : List Element) (acc acc' : TestResultSummary),
      junitSuitesLoop skip acc l = .ok acc' →
      ∀ suite ∈ l,
        (skip = false → ∀ v, suite.get "time" = some v → v ≠ "" → pyFloat v ≠ none) ∧
        (∀ tc ∈ suite.descendantsWithTag "testcase",
          ∀ v, tc.get "time" = some v → pyFloat v ≠ none)
  | [], _, _, _ => by
    intro suite hs
    exact absurd hs (List.not_mem_nil suite)
  | s :: rest, acc, acc', h => by
    unfold junitSuitesLoop at h
    rw [except_bind_ok] at h
    obtain ⟨acc2, hstep, h⟩ := h
    intro suite hs
    rcases List.mem_cons.mp hs with rfl | hmem
    · exact junitSuiteStep_ok_numeric hstep
    · exact junitSuitesLoop_ok_numeric rest acc2 acc' h suite hmem

/-- A successful junit parse reached the suites loop with the skip flag
`root.tag == 'testsuites' and bool(root.get('time'))`. -/
theorem junitFromRoot_ok_loop {root : Element} {s : TestResultSummary}
    (hok : junitFromRoot root = .ok s) :
    ∃ t0 : Rat,
      junitSuitesLoop (root.tag == "testsuites" && pyTruthy (root.get "time"))
        ⟨0, 0, 0, 0, 0, t0, []⟩ (junitSuites root) = .ok s := by
  unfold junitFromRoot at hok
  repeat' split at hok
  all_goals simp only [ok_bind, error_bind] at hok
  all_goals first
    | exact absurd hok (by simp)
    | exact ⟨_, hok⟩

/-- A successful junit parse of a `testsuites` container read the root
time attribute: a truthy value parsed. -/
theorem junitFromRoot_ok_root_time {root : Element} {s : TestResultSummary}
    (hok : junitFromRoot root = .ok s) (htag : root.tag = "testsuites") :
    ∀ v, root.get "time" = some v → v ≠ "" → pyFloat v ≠ none := by
  intro v hget hne hbad
  have hb : (v == "") = false := by simp [hne]
  unfold junitFromRoot at hok
  simp [htag, hget, hb, hbad, error_bind] at hok

theorem xunitTest_ok_time {cn : String} {t : Element} {c : TestCaseResult}
    (h : xunitTest cn t = .ok c) :
    ∀ v, t.get "time" = some v → pyFloat v ≠ none := by
  unfold xunitTest at h
  rw [except_bind_ok] at h
  obtain ⟨tm, htm, _⟩ := h
  exact timeAttr_ok_parses htm

theorem xunitTestsLoop_ok_times {cn : String} :
    ∀ (l : List Element) (acc acc' : List TestCaseResult),
      xunitTestsLoop cn acc l = .ok acc' →
      ∀ t ∈ l, ∀ v, t.get "time" = some v → pyFloat v ≠ none
  | [], _, _, _ => by
    intro t ht
    exact absurd ht (List.not_mem_nil t)
  | t0 :: rest, acc, acc', h => by
    unfold xunitTestsLoop at h
    rw [except_bind_ok] at h
    obtain ⟨c, hc, h⟩ := h
    intro t ht
    rcases List.mem_cons.mp ht with rfl | hmem
    · exact xunitTest_ok_time hc
    · exact xunitTestsLoop_ok_times rest _ acc' h t hmem

theorem xunitCollectionsLoop_ok_times :
    ∀ (l : List Element) (acc acc' : List TestCaseResult),
      xunitCollectionsLoop acc l = .ok acc' →
      ∀ coll ∈ l, ∀ t ∈ coll.descendantsWithTag "test",
        ∀ v, t.get "time" = some v → pyFloat v ≠ none
  | [], _, _, _ => by
    intro coll hc
    exact absurd hc (List.not_mem_nil coll)
  | c0 :: rest, acc, acc', h => by
    unfold xunitCollectionsLoop at h
    rw [except_bind_ok] at h
    obtain ⟨acc2, hstep, h⟩ := h
    intro coll hc
    rcases List.mem_cons.mp hc with rfl | hmem
    · exact xunitTestsLoop_ok_times _ _ _ hstep
    · exact xunitCollectionsLoop_ok_times rest acc2 acc' h coll hmem

/-- A successful xunit assembly iteration read every one of its numeric
attributes: the five counts, the time, and each enumerated test's time. -/
theorem xunitAssemblyStep_ok_numeric {acc : TestResultSummary} {a : Element}
    {acc' : TestResultSummary} (h : xunitAssemblyStep acc a = .ok acc') :
    (∀ name, (name = "total" ∨ name = "passed" ∨ name = "failed" ∨
        name = "skipped" ∨ name = "errors") →
      ∀ v, a.get name = some v → pyInt v ≠ none) ∧
    (∀ v, a.get "time" = some v → pyFloat v ≠ none) ∧
    (∀ coll ∈ a.descendantsWithTag "collection", ∀ t ∈ coll.descendantsWithTag "test",
      ∀ v, t.get "time" = some v → pyFloat v ≠ none) := by
  unfold xunitAssemblyStep at h
  rw [except_bind_ok] at h
  obtain ⟨t, ht, h⟩ := h
  rw [except_bind_ok] at h
  obtain ⟨p, hp, h⟩ := h
  rw [except_bind_ok] at h
  obtain ⟨f, hf, h⟩ := h
  rw [except_bind_ok] at h
  obtain ⟨sk, hsk, h⟩ := h
  rw [except_bind_ok] at h
  obtain ⟨er, her, h⟩ := h
  rw [except_bind_ok] at h
  obtain ⟨tm, htm, h⟩ := h
  rw [except_bind_ok] at h
  obtain ⟨cs, hcs, _⟩ := h
  refine ⟨?_, timeAttr_ok_parses htm, xunitCollectionsLoop_ok_times _ _ _ hcs⟩
  intro name hname v
  rcases hname with rfl | rfl | rfl | rfl | rfl
  · exact intAttr_ok_parses ht v
  · exact intAttr_ok_parses hp v
  · exact intAttr_ok_parses hf v
  · exact intAttr_ok_parses hsk v
  · exact intAttr_ok_parses her v

theorem xunitAssembliesLoop_ok_numeric :
    ∀ (l : List Element) (acc acc' : TestResultSummary),
      xunitAssembliesLoop acc l = .ok acc' →
      ∀ a ∈ l,
        (∀ name, (name = "total" ∨ name = "passed" ∨ name = "failed" ∨
            name = "skipped" ∨ name = "errors") →
          ∀ v, a.get name = some v → pyInt v ≠ none) ∧
        (∀ v, a.get "time" = some v → pyFloat v ≠ none) ∧
        (∀ coll ∈ a.descendantsWithTag "collection", ∀ t ∈ coll.descendantsWithTag "test",
          ∀ v, t.get "time" = some v → pyFloat v ≠ none)
  | [], _, _, _ => by
    intro a ha
    exact absurd ha (List.not_mem_nil a)
  | a0 :: rest, acc, acc', h => by
    unfold xunitAssembliesLoop at h
    rw [except_bind_ok] at h
    obtain ⟨acc2, hstep, h⟩ := h
    intro a ha
    rcases List.mem_cons.mp ha with rfl | hmem
    · exact xunitAssemblyStep_ok_numeric hstep
    · exact xunitAssembliesLoop_ok_numeric rest acc2 acc' h a hmem

theorem nunitCase_ok_time {sn : String} {tc : Element} {c : TestCaseResult}
    (h : nunitCase sn tc = .ok c) :
    ∀ v, tc.get "time" = some v → pyFloat v ≠ none := by
  unfold nunitCase at h
  rw [except_bind_ok] at h
  obtain ⟨tm, htm, _⟩ := h
  exact timeAttr_ok_parses htm

theorem nunitCasesLoop_ok_times {sn : String} :
    ∀ (l : List Element) (acc acc' : List TestCaseResult),
      nunitCasesLoop sn acc l = .ok acc' →
      ∀ tc ∈ l, ∀ v, tc.get "time" = some v → pyFloat v ≠ none
  | [], _, _, _ => by
    intro tc htc
    exact absurd htc (List.not_mem_nil tc)
  | t0 :: rest, acc, acc', h => by
    unfold nunitCasesLoop at h
    rw [except_bind_ok] at h
    obtain ⟨c, hc, h⟩ := h
    intro tc htc
    rcases List.mem_cons.mp htc with rfl | hmem
    · exact nunitCase_ok_time hc
    · exact nunitCasesLoop_ok_times rest _ acc' h tc hmem

theorem nunitSuiteStep_ok_times {st : Rat × List TestCaseResult} {suite : Element}
    {r : Rat × List TestCaseResult} (h : nunitSuiteStep st suite = .ok r) :
    ∀ res, suite.find "results" = some res →
      ∀ tc ∈ res.childrenWithTag "test-case",
        ∀ v, tc.get "time" = some v → pyFloat v ≠ none := by
  intro res hres
  unfold nunitSuiteStep at h
  simp only [hres] at h
  rw [except_bind_ok] at h
  obtain ⟨cs, hcs, _⟩ := h
  exact nunitCasesLoop_ok_times _ _ _ hcs

theorem nunitSuitesLoop_ok_times :
    ∀ (l : List Element) (st r : Rat × List TestCaseResult),
      nunitSuitesLoop st l = .ok r →
      ∀ suite ∈ l, ∀ res, suite.find "results" = some res →
        ∀ tc ∈ res.childrenWithTag "test-case",
          ∀ v, tc.get "time" = some v → pyFloat v ≠ none
  | [], _, _, _ => by
    intro suite hs
    exact absurd hs (List.not_mem_nil suite)
  | s0 :: rest, st, r, h => by
    unfold nunitSuitesLoop at h
    rw [except_bind_ok] at h
    obtain ⟨st2, hstep, h⟩ := h
    intro suite hs
    rcases List.mem_cons.mp hs with rfl | hmem
    · exact nunitSuiteStep_ok_times hstep
    · exact nunitSuitesLoop_ok_times rest st2 r h suite hmem

/-! ### C2: numeric attribute failure policy -/

/-- C2 (amended): only the nunit root time attribute and nunit suite time
attributes degrade gracefully when they fail to parse as numbers (the
root falls back to the suite-time sum, suite times are skipped): the
success of a nunit parse is independent of both.  Every other numeric
attribute a parse reads must be numeric for a summary to be returned —
equivalently, a non-numeric value at any such site (junit root/suite/
testcase times, xunit assembly counts and times and test times, nunit
count attributes and test-case times) causes the parse to fail, as the
four concrete end-to-end `ValueError` runs exhibit. -/
theorem numeric_attr_failure_policy :
    (∀ root : Element, root.tag = "test-results" →
      (okB (nunitFromRoot root) = true ↔
        (okB (intAttr root "total") = true ∧ okB (intAttr root "errors") = true ∧
         okB (intAttr root "failures") = true ∧ okB (intAttr root "skipped") = true ∧
         okB (intAttr root "ignored") = true ∧ okB (intAttr root "not-run") = true ∧
         okB (nunitSuitesLoop (0, []) (root.descendantsWithTag "test-suite")) = true))) ∧
    (∀ (st : Rat × List TestCaseResult) (suite : Element),
      okB (nunitSuiteStep st suite) = true ↔
        (∀ res, suite.find "results" = some res →
          okB (nunitCasesLoop ((suite.get "name").getD "Unknown") st.2
                (res.childrenWithTag "test-case")) = true)) ∧
    (∀ (root : Element) (s : TestResultSummary), junitFromRoot root = .ok s →
      (root.tag = "testsuites" →
        ∀ v, root.get "time" = some v → v ≠ "" → pyFloat v ≠ none) ∧
      (∀ suite ∈ junitSuites root,
        ((root.tag == "testsuites" && pyTruthy (root.get "time")) = false →
          ∀ v, suite.get "time" = some v → v ≠ "" → pyFloat v ≠ none) ∧
        (∀ tc ∈ suite.descendantsWithTag "testcase",
          ∀ v, tc.get "time" = some v → pyFloat v ≠ none))) ∧
    (∀ (root : Element) (s : TestResultSummary), xunitFromRoot root = .ok s →
      ∀ a ∈ root.descendantsWithTag "assembly",
        (∀ name, (name = "total" ∨ name = "passed" ∨ name = "failed" ∨
            name = "skipped" ∨ name = "errors") →
          ∀ v, a.get name = some v → pyInt v ≠ none) ∧
        (∀ v, a.get "time" = some v → pyFloat v ≠ none) ∧
        (∀ coll ∈ a.descendantsWithTag "collection", ∀ t ∈ coll.descendantsWithTag "test",
          ∀ v, t.get "time" = some v → pyFloat v ≠ none)) ∧
    (∀ (root : Element) (s : TestResultSummary), root.tag = "test-results" →
      nunitFromRoot root = .ok s →
      (∀ name, (name = "total" ∨ name = "errors" ∨ name = "failures" ∨
          name = "skipped" ∨ name = "ignored" ∨ name = "not-run") →
        ∀ v, root.get name = some v → pyInt v ≠ none) ∧
      (∀ suite ∈ root.descendantsWithTag "test-suite",
        ∀ res, suite.find "results" = some res →
          ∀ tc ∈ res.childrenWithTag "test-case",
            ∀ v, tc.get "time" = some v → pyFloat v ≠ none)) ∧
    junitFromRoot badJunit = .error (.valueError "abc") ∧
    xunitFromRoot badXunit = .error (.valueError "xyz") ∧
    nunitFromRoot badNunitTotal = .error (.valueError "nope") ∧
    nunitFromRoot badNunitTC = .error (.valueError "xx") := by
  refine ⟨nunit_success_iff, nunitSuiteStep_success_iff, ?_, ?_, ?_,
    by decide, by decide, by decide, by decide⟩
  · intro root s hok
    refine ⟨junitFromRoot_ok_root_time hok, ?_⟩
    obtain ⟨t0, hloop⟩ := junitFromRoot_ok_loop hok
    exact junitSuitesLoop_ok_numeric _ _ _ hloop
  · intro root s hok
    unfold xunitFromRoot at hok
    exact xunitAssembliesLoop_ok_numeric _ _ _ hok
  · intro root s htag hok
    obtain ⟨t, e, f, sk, ig, nr, sum, cs, ht, he, hf, hsk, hig, hnr, hloop, _⟩ :=
      nunitFromRoot_ok_elim htag hok
    refine ⟨?_, nunitSuitesLoop_ok_times _ _ _ hloop⟩
    intro name hname v
    rcases hname with rfl | rfl | rfl | rfl | rfl | rfl
    · exact intAttr_ok_parses ht v
    · exact intAttr_ok_parses he v
    · exact intAttr_ok_parses hf v
    · exact intAttr_ok_parses hsk v
    · exact intAttr_ok_parses hig v
    · exact intAttr_ok_parses hnr v

/-- C2 counterexample: a junit testcase whose time attribute is `"abc"`
makes the parse raise `ValueError` — a numeric attribute parse failure
that is propagated as an error. -/
theorem numeric_attr_failure_counterexample :
    junitFromRoot badJunit = .error (.valueError "abc") := by decide

/-- C2 witness: on `c2Root` (unparsable root time `"20:10:11"`) the
success characterization holds concretely, and the junit universal is
exercised at the successfully parsed `tinyJunit`. -/
theorem numeric_attr_failure_policy_witness :
    (okB (nunitFromRoot c2Root) = true ↔
      (okB (intAttr c2Root "total") = true ∧ okB (intAttr c2Root "errors") = true ∧
       okB (intAttr c2Root "failures") = true ∧ okB (intAttr c2Root "skipped") = true ∧
       okB (intAttr c2Root "ignored") = true ∧ okB (intAttr c2Root "not-run") = true ∧
       okB (nunitSuitesLoop (0, []) (c2Root.descendantsWithTag "test-suite")) = true)) ∧
    junitFromRoot tinyJunit = .ok tinyJunitSummary ∧
    ((tinyJunit.tag = "testsuites" →
        ∀ v, tinyJunit.get "time" = some v → v ≠ "" → pyFloat v ≠ none) ∧
      (∀ suite ∈ junitSuites tinyJunit,
        ((tinyJunit.tag == "testsuites" && pyTruthy (tinyJunit.get "time")) = false →
          ∀ v, suite.get "time" = some v → v ≠ "" → pyFloat v ≠ none) ∧
        (∀ tc ∈ suite.descendantsWithTag "testcase",
          ∀ v, tc.get "time" = some v → pyFloat v ≠ none))) :=
  ⟨numeric_attr_failure_policy.1 c2Root rfl, by decide,
   numeric_attr_failure_policy.2.2.1 tinyJunit tinyJunitSummary (by decide)⟩

/-! ### C4: nunit failure message derivation -/

/-- C4 (amended): for a nunit test-case with a `failure` child, the case
message is the trimmed text of the failure's `message` element when that
element exists with non-empty text; otherwise it falls back to the
failure element's own trimmed text, and only when that too is absent or
empty does the case carry no message. -/
theorem nunit_failure_message (sn : String) (tc : Element) (c : TestCaseResult) (f : Element)
    (hok : nunitCase sn tc = .ok c) (hf : tc.find "failure" = some f) :
    (∀ m t, f.find "message" = some m → m.text = some t → t ≠ "" →
      c.message = some (strTrim t)) ∧
    ((f.find "message" = none ∨
        (∃ m, f.find "message" = some m ∧ (m.text = none ∨ m.text = some ""))) →
      ((f.text = none ∨ f.text = some "") → c.message = none) ∧
      (∀ t, f.text = some t → t ≠ "" → c.message = some (strTrim t))) := by
  unfold nunitCase at hok
  rw [except_bind_ok] at hok
  obtain ⟨tm, htm, hok⟩ := hok
  obtain rfl := (Except.ok.injEq _ _).mp hok
  constructor
  · intro m t hm ht hne
    have hb : (t == "") = false := by simp [hne]
    simp [hf, hm, ht, hb]
  · intro hcase
    constructor
    · intro htext
      rcases hcase with hm | ⟨m, hm, hmt⟩
      · rcases htext with h0 | h0 <;> simp [hf, hm, h0]
      · rcases hmt with hn | hn <;> rcases htext with h0 | h0 <;> simp [hf, hm, hn, h0]
    · intro t ht hne
      have hb : (t == "") = false := by simp [hne]
      rcases hcase with hm | ⟨m, hm, hmt⟩
      · simp [hf, hm, ht, hb]
      · rcases hmt with hn | hn <;> simp [hf, hm, hn, ht, hb]

/-- C4 counterexample: a failure child with text `" boom "` and no
`message` element yields the message `"boom"`, not the absence of a
message. -/
theorem nunit_failure_message_counterexample :
    c4TC.find "failure" = some c4Failure ∧
    c4Failure.find "message" = none ∧
    nunitCase "S" c4TC = .ok ⟨"T", "S", "failed", 0, some "boom"⟩ :=
  ⟨by rfl, by rfl, by decide⟩

/-- C4 witness: the amended statement at `c4TC`: the failure text
fallback fires, trimming `" boom "` to `"boom"`. -/
theorem nunit_failure_message_witness :
    nunitCase "S" c4TC = .ok ⟨"T", "S", "failed", 0, some "boom"⟩ ∧
    c4TC.find "failure" = some c4Failure ∧
    ((⟨"T", "S", "failed", 0, some "boom"⟩ : TestCaseResult).message = some (strTrim " boom ")) :=
  ⟨by decide, by rfl,
   ((nunit_failure_message "S" c4TC ⟨"T", "S", "failed", 0, some "boom"⟩ c4Failure
        (by decide) (by rfl)).2 (.inl (by rfl))).2 " boom " (by rfl) (by decide)⟩

/-! ### C6: junit case status priority -/

/-- C6: a processed junit testcase is `passed` iff it has no `failure`,
`error` or `skipped` direct child; with several present, `failure` beats
`error` beats `skipped`. -/
theorem junit_case_status_priority (sn : String) (acc : TestResultSummary) (tc : Element)
    (acc' : TestResultSummary) (hok : junitCaseStep sn acc tc = .ok acc') :
    ∃ c, acc'.test_cases = acc.test_cases ++ [c] ∧
      (c.result = "passed" ↔
        tc.find "failure" = none ∧ tc.find "error" = none ∧ tc.find "skipped" = none) ∧
      (∀ f, tc.find "failure" = some f → c.result = "failed") ∧
      (tc.find "failure" = none → ∀ er, tc.find "error" = some er → c.result = "error") ∧
      (tc.find "failure" = none → tc.find "error" = none →
        ∀ sk, tc.find "skipped" = some sk → c.result = "skipped") := by
  unfold junitCaseStep at hok
  rw [except_bind_ok] at hok
  obtain ⟨tm, htm, hok⟩ := hok
  rcases hff : tc.find "failure" with _ | f
  all_goals rcases her : tc.find "error" with _ | er
  all_goals rcases hsk : tc.find "skipped" with _ | sk
  all_goals simp only [hff, her, hsk] at hok
  all_goals obtain rfl := (Except.ok.injEq _ _).mp hok
  all_goals refine ⟨_, rfl, ?_, ?_, ?_, ?_⟩
  all_goals simp [hff, her, hsk]

/-- C6 witness: a testcase with only a `failure` child gets status
`failed`, not `passed`. -/
theorem junit_case_status_priority_witness :
    ∃ c : TestCaseResult, c6Acc.test_cases = zeroSummary.test_cases ++ [c] ∧
      (c.result = "passed" ↔
        tinyJunitFailTC.find "failure" = none ∧ tinyJunitFailTC.find "error" = none ∧
          tinyJunitFailTC.find "skipped" = none) ∧
      (∀ f, tinyJunitFailTC.find "failure" = some f → c.result = "failed") ∧
      (tinyJunitFailTC.find "failure" = none →
        ∀ er, tinyJunitFailTC.find "error" = some er → c.result = "error") ∧
      (tinyJunitFailTC.find "failure" = none → tinyJunitFailTC.find "error" = none →
        ∀ sk, tinyJunitFailTC.find "skipped" = some sk → c.result = "skipped") :=
  junit_case_status_priority "S" zeroSummary tinyJunitFailTC c6Acc (by decide)

/-- C7 witness: the concrete two-case suite `tinyJunit` parses to a
summary with 2 = 1 + 1 + 0 + 0 and two recorded cases. -/
theorem junit_totals_consistent_witness :
    junitFromRoot tinyJunit = .ok tinyJunitSummary ∧
    (tinyJunitSummary.total = tinyJunitSummary.passed + tinyJunitSummary.failed +
        tinyJunitSummary.errors + tinyJunitSummary.skipped ∧
      tinyJunitSummary.total = (tinyJunitSummary.test_cases.length : Int)) :=
  ⟨by decide, junit_totals_consistent tinyJunit tinyJunitSummary (by decide)⟩

theorem intAttr_ok_val {e : Element} {n : String} {v : Int} (h : intAttr e n = .ok v) :
    attrIntD e n = v := by
  unfold intAttr at h
  unfold attrIntD
  rcases hg : e.get n with _ | s <;> simp only [hg] at h ⊢
  · exact (Except.ok.injEq _ _).mp h
  · rcases hp : pyInt s with _ | m <;> simp only [hp] at h ⊢
    · exact absurd h (by simp)
    · exact (Except.ok.injEq _ _).mp h

theorem timeAttr_ok_val {e : Element} {q : Rat} (h : timeAttr e = .ok q) :
    attrTimeD e = q := by
  unfold timeAttr at h
  unfold attrTimeD
  rcases hg : e.get "time" with _ | s <;> simp only [hg] at h ⊢
  · exact (Except.ok.injEq _ _).mp h
  · rcases hp : pyFloat s with _ | m <;> simp only [hp] at h ⊢
    · exact absurd h (by simp)
    · exact (Except.ok.injEq _ _).mp h

/-- One assembly adds exactly its own attribute values to the running
totals. -/
theorem xunitAssemblyStep_sums {acc : TestResultSummary} {a : Element}
    {s : TestResultSummary} (hok : xunitAssemblyStep acc a = .ok s) :
    s.total = acc.total + attrIntD a "total" ∧
    s.passed = acc.passed + attrIntD a "passed" ∧
    s.failed = acc.failed + attrIntD a "failed" ∧
    s.skipped = acc.skipped + attrIntD a "skipped" ∧
    s.errors = acc.errors + attrIntD a "errors" ∧
    s.time = acc.time + attrTimeD a := by
  unfold xunitAssemblyStep at hok
  rw [except_bind_ok] at hok
  obtain ⟨t, ht, hok⟩ := hok
  rw [except_bind_ok] at hok
  obtain ⟨p, hp, hok⟩ := hok
  rw [except_bind_ok] at hok
  obtain ⟨f, hf, hok⟩ := hok
  rw [except_bind_ok] at hok
  obtain ⟨sk, hsk, hok⟩ := hok
  rw [except_bind_ok] at hok
  obtain ⟨er, her, hok⟩ := hok
  rw [except_bind_ok] at hok
  obtain ⟨tm, htm, hok⟩ := hok
  rw [except_bind_ok] at hok
  obtain ⟨cs, hcs, hok⟩ := hok
  obtain rfl := (Except.ok.injEq _ _).mp hok
  rw [intAttr_ok_val ht, intAttr_ok_val hp, intAttr_ok_val hf, intAttr_ok_val hsk,
      intAttr_ok_val her, timeAttr_ok_val htm]
  exact ⟨rfl, rfl, rfl, rfl, rfl, rfl⟩

theorem xunitAssembliesLoop_sums :
    ∀ (l : List Element) (acc s : TestResultSummary),
      xunitAssembliesLoop acc l = .ok s →
      s.total = acc.total + (l.map (fun a => attrIntD a "total")).sum ∧
      s.passed = acc.passed + (l.map (fun a => attrIntD a "passed")).sum ∧
      s.failed = acc.failed + (l.map (fun a => attrIntD a "failed")).sum ∧
      s.skipped = acc.skipped + (l.map (fun a => attrIntD a "skipped")).sum ∧
      s.errors = acc.errors + (l.map (fun a => attrIntD a "errors")).sum ∧
      s.time = acc.time + (l.map attrTimeD).sum
  | [], acc, s, h => by
    unfold xunitAssembliesLoop at h
    obtain rfl := (Except.ok.injEq _ _).mp h
    simp
  | a :: rest, acc, s, h => by
    unfold xunitAssembliesLoop at h
    rw [except_bind_ok] at h
    obtain ⟨acc2, hstep, h⟩ := h
    obtain ⟨h1, h2, h3, h4, h5, h6⟩ := xunitAssemblyStep_sums hstep
    obtain ⟨g1, g2, g3, g4, g5, g6⟩ := xunitAssembliesLoop_sums rest acc2 s h
    refine ⟨?_, ?_, ?_, ?_, ?_, ?_⟩ <;> simp only [List.map_cons, List.sum_cons]
    · rw [g1, h1, add_assoc]
    · rw [g2, h2, add_assoc]
    · rw [g3, h3, add_assoc]
    · rw [g4, h4, add_assoc]
    · rw [g5, h5, add_assoc]
    · rw [g6, h6, add_assoc]

/-! ### C5: xunit aggregates are authoritative -/

/-- C5: an xunit summary's counts and time are exactly the sums of the
assembly attributes, never recomputed from the enumerated tests — shown by
a document whose summary total differs from the number of its cases. -/
theorem xunit_authoritative_totals :
    (∀ (root : Element) (s : TestResultSummary), xunitFromRoot root = .ok s →
      s.total = ((root.descendantsWithTag "assembly").map (fun a => attrIntD a "total")).sum ∧
      s.passed = ((root.descendantsWithTag "assembly").map (fun a => attrIntD a "passed")).sum ∧
      s.failed = ((root.descendantsWithTag "assembly").map (fun a => attrIntD a "failed")).sum ∧
      s.skipped =
        ((root.descendantsWithTag "assembly").map (fun a => attrIntD a "skipped")).sum ∧
      s.errors = ((root.descendantsWithTag "assembly").map (fun a => attrIntD a "errors")).sum ∧
      s.time = ((root.descendantsWithTag "assembly").map attrTimeD).sum) ∧
    (∃ s, xunitFromRoot mismatchXunit = .ok s ∧ s.total ≠ (s.test_cases.length : Int)) := by
  constructor
  · intro root s hok
    unfold xunitFromRoot at hok
    have := xunitAssembliesLoop_sums _ _ _ hok
    simpa [zeroSummary] using this
  · exact ⟨mismatchSummary, by decide, by decide⟩

/-- C5 witness: on `mismatchXunit` the sums of the assembly attributes
give the summary counts (total 5, one case). -/
theorem xunit_authoritative_totals_witness :
    xunitFromRoot mismatchXunit = .ok mismatchSummary ∧
    (mismatchSummary.total =
        ((mismatchXunit.descendantsWithTag "assembly").map (fun a => attrIntD a "total")).sum ∧
      mismatchSummary.passed =
        ((mismatchXunit.descendantsWithTag "assembly").map (fun a => attrIntD a "passed")).sum ∧
      mismatchSummary.failed =
        ((mismatchXunit.descendantsWithTag "assembly").map (fun a => attrIntD a "failed")).sum ∧
      mismatchSummary.skipped =
        ((mismatchXunit.descendantsWithTag "assembly").map (fun a => attrIntD a "skipped")).sum ∧
      mismatchSummary.errors =
        ((mismatchXunit.descendantsWithTag "assembly").map (fun a => attrIntD a "errors")).sum ∧
      mismatchSummary.time =
        ((mismatchXunit.descendantsWithTag "assembly").map attrTimeD).sum) :=
  ⟨by decide, xunit_authoritative_totals.1 mismatchXunit mismatchSummary (by decide)⟩

/-! ### C1: nunit root aggregate derivation -/

/-- C1: for a nunit parse whose root tag is `test-results`, the summary's
skipped count is the sum of the root's `skipped`, `ignored` and `not-run`
attributes, total/failed/errors come from the corresponding root
attributes, and passed is derived as total - failed - errors - skipped. -/
theorem nunit_root_aggregates (root : Element) (s : TestResultSummary)
    (htag : root.tag = "test-results") (hok : nunitFromRoot root = .ok s)
    (t f e sk ig nr : Int)
    (ht : intAttr root "total" = .ok t) (hf : intAttr root "failures" = .ok f)
    (he : intAttr root "errors" = .ok e) (hsk : intAttr root "skipped" = .ok sk)
    (hig : intAttr root "ignored" = .ok ig) (hnr : intAttr root "not-run" = .ok nr) :
    s.total = t ∧ s.failed = f ∧ s.errors = e ∧ s.skipped = sk + ig + nr ∧
    s.passed = s.total - s.failed - s.errors - s.skipped := by
  obtain ⟨t', e', f', sk', ig', nr', sum, cs, ht', he', hf', hsk', hig', hnr', hloop, hs⟩ :=
    nunitFromRoot_ok_elim htag hok
  obtain rfl : t = t' := by rw [ht] at ht'; exact (Except.ok.injEq _ _).mp ht'
  obtain rfl : e = e' := by rw [he] at he'; exact (Except.ok.injEq _ _).mp he'
  obtain rfl : f = f' := by rw [hf] at hf'; exact (Except.ok.injEq _ _).mp hf'
  obtain rfl : sk = sk' := by rw [hsk] at hsk'; exact (Except.ok.injEq _ _).mp hsk'
  obtain rfl : ig = ig' := by rw [hig] at hig'; exact (Except.ok.injEq _ _).mp hig'
  obtain rfl : nr = nr' := by rw [hnr] at hnr'; exact (Except.ok.injEq _ _).mp hnr'
  subst hs
  exact ⟨rfl, rfl, rfl, rfl, rfl⟩

/-- C1 witness: `tinyNunit` has total=4, failures=1, errors=1 and
skipped+ignored+not-run = 1+1+0 = 2, so passed = 4-1-1-2 = 0 — the
all-consumed case where the difference is zero. -/
theorem nunit_root_aggregates_witness :
    nunitFromRoot tinyNunit = .ok tinySummary ∧
    (tinySummary.total = 4 ∧ tinySummary.failed = 1 ∧ tinySummary.errors = 1 ∧
      tinySummary.skipped = 1 + 1 + 0 ∧
      tinySummary.passed =
        tinySummary.total - tinySummary.failed - tinySummary.errors - tinySummary.skipped) :=
  ⟨by decide,
   nunit_root_aggregates tinyNunit tinySummary rfl (by decide) 4 1 1 1 1 0
     (by rfl) (by rfl) (by rfl) (by rfl) (by rfl) (by rfl)⟩

/-! ### C8: unknown format selector -/

/-- C8: for every selector outside {junit, xunit, nunit} and every input,
`parse` raises the unsupported-format `ValueError`; the result is
independent of the filesystem and of the input string, so no I/O is
attempted. -/
theorem unsupported_format_rejected (rt : String) (h1 : rt ≠ "junit") (h2 : rt ≠ "xunit")
    (h3 : rt ≠ "nunit") (fs fs' : FS) (input input' : String) :
    parse rt fs input = .error (.valueError ("Unsupported report type: " ++ rt)) ∧
    parse rt fs input = parse rt fs' input' := by
  unfold parse
  simp [h1, h2, h3]

/-- C8 witness: the selector `"invalid"` is rejected without looking at
the input. -/
theorem unsupported_format_rejected_witness :
    parse "invalid" emptyFS "<xml/>" =
      .error (.valueError ("Unsupported report type: " ++ "invalid")) ∧
    parse "invalid" emptyFS "<xml/>" = parse "invalid" (fun _ => some "x") "other" :=
  unsupported_format_rejected "invalid" (by decide) (by decide) (by decide)
    emptyFS (fun _ => some "x") "<xml/>" "other"

/-! ### C9: likely-path heuristic of `_get_root` -/

/-- C9: for a non-file input whose trimmed form does not start with `<`:
if it has no newline and has a path separator or a case-insensitive
`.xml` suffix, `_get_root` fails with `FileNotFoundError`; otherwise it
is handed to the XML string parse, surfacing `ET.ParseError` when that
fails. -/
theorem path_heuristic_diagnostics (fs : FS) (input : String)
    (hlt : strStarts (strTrim input) "<" = false) (hfs : fs input = none) :
    ((strHasChar input '\n' = false ∧
        (strHasChar input '/' = true ∨ strHasChar input '\\' = true ∨
          strEnds (strLower input) ".xml" = true)) →
      getRoot fs input = .error (.fileNotFound ("File not found: " ++ input))) ∧
    ((strHasChar input '\n' = true ∨
        (strHasChar input '/' = false ∧ strHasChar input '\\' = false ∧
          strEnds (strLower input) ".xml" = false)) →
      getRoot fs input =
        match fromstring input with
        | some e => .ok e
        | none => .error (.parseError input)) := by
  unfold getRoot
  constructor
  · rintro ⟨hn, hsep⟩
    rcases hsep with h | h | h <;> simp [hlt, hfs, hn, h]
  · rintro (h | ⟨h1, h2, h3⟩) <;> simp [hlt, hfs, *]

/-- C9 witness: `"reports/missing.xml"` (missing file, has a separator)
gives file-not-found; `"Not even XML"` (no separator, no `.xml` suffix)
goes to the XML parse and surfaces a parse error. -/
theorem path_heuristic_diagnostics_witness :
    getRoot emptyFS "reports/missing.xml" =
      .error (.fileNotFound ("File not found: " ++ "reports/missing.xml")) ∧
    getRoot emptyFS "Not even XML" =
      match fromstring "Not even XML" with
      | some e => .ok e
      | none => .error (.parseError "Not even XML") :=
  ⟨(path_heuristic_diagnostics emptyFS "reports/missing.xml" (by rfl) rfl).1
      (by exact ⟨rfl, .inl rfl⟩),
   (path_heuristic_diagnostics emptyFS "Not even XML" (by rfl) rfl).2
      (by exact .inr ⟨rfl, rfl, rfl⟩)⟩

/-! ### C10: well-formed XML that does not match the dialect -/

/-- C10: a nunit parse whose root tag is not `test-results`, and an xunit
parse of a document with no `assembly` descendant, both return the all-zero
summary with an empty case list instead of raising. -/
theorem structure_mismatch_zero_summary (root : Element) :
    (root.tag ≠ "test-results" → nunitFromRoot root = .ok zeroSummary) ∧
    (root.descendantsWithTag "assembly" = [] → xunitFromRoot root = .ok zeroSummary) := by
  constructor
  · intro h
    unfold nunitFromRoot
    simp [h, zeroSummary]
  · intro h
    unfold xunitFromRoot
    rw [h]
    rfl

/-- C10 witness: a `<foo/>` document yields the zero summary in both the
nunit and the xunit dialect. -/
theorem structure_mismatch_zero_summary_witness :
    nunitFromRoot fooRoot = .ok zeroSummary ∧ xunitFromRoot fooRoot = .ok zeroSummary :=
  ⟨(structure_mismatch_zero_summary fooRoot).1 (by decide),
   (structure_mismatch_zero_summary fooRoot).2 (by rfl)⟩

end
